import Mathlib

/-!
# Shallow embedding of the valai schema-validation and JSON-repair engine

This file embeds, in Lean 4, the parts of the `valai` TypeScript repository
that the frozen claims C1–C10 are about:

* the dynamic (JavaScript) value model used by validation,
* a model of strict `JSON.parse` (the platform primitive the repair
  orchestrator and `parseLLM` call),
* the repair fixers and extractors
  (`src/packages/core/src/repair/fixers/*.ts`, `repair/extractors/*.ts`)
  and the repair orchestrator `repairJSON` (`repair/repair.ts`),
* the parse context with its parent-chain issue forwarding
  (`src/packages/core/src/parse/context.ts`),
* the schema node variants and their `_parse` methods that the claims
  exercise (string, number, array, object, union,
  optional/nullable/default — `schemas/*.ts`), together with the
  `parse` / `safeParse` / `parseLLM` entry points (`schemas/base.ts`).

Text is modelled as `List Char` (JavaScript strings are sequences of code
units; all inputs in this development are ASCII).  Numbers are modelled as
`Rat` (exact; the concrete values exercised here — small integers and halves
— carry no float rounding), with `NaN` a separate constructor since the code
treats it specially.  Error-message rendering (`errors/messages.ts`) is a
lookup table outside the algorithmic core and issues are embedded without
their `message` field; all other issue payload fields are kept.
-/

namespace Valai

/-! ## JavaScript character classes and trimming

`\s` in a JavaScript regex and `String.prototype.trim` cover ASCII
whitespace plus a handful of Unicode spaces; the ASCII part plus NBSP is
modelled (all texts in this development are ASCII). -/

/-- Characters matched by the JavaScript regex class `\s` (modelled fragment). -/
def isJsWs (c : Char) : Bool :=
  c = ' ' || c = '\t' || c = '\n' || c = '\r' || c = '\x0b' || c = '\x0c' || c = ' '

/-- Word characters for the JavaScript `\b` boundary (`\w` = `[A-Za-z0-9_]`). -/
def isWordChar (c : Char) : Bool := c.isAlpha || c.isDigit || c = '_'

/-- Decimal digit. -/
def isDigitCh (c : Char) : Bool := c.isDigit

/-- Hexadecimal digit (`[0-9a-fA-F]`). -/
def isHexCh (c : Char) : Bool :=
  c.isDigit || (97 ≤ c.toNat && c.toNat ≤ 102) || (65 ≤ c.toNat && c.toNat ≤ 70)

/-- Octal digit (`[0-7]`). -/
def isOctCh (c : Char) : Bool := 48 ≤ c.toNat && c.toNat ≤ 55

/-- Binary digit (`[01]`). -/
def isBinCh (c : Char) : Bool := c = '0' || c = '1'

/-- First character of a JavaScript identifier (`[a-zA-Z_$]`),
as used by `fixUnquotedKeys` (repair/fixers/keys.ts). -/
def isIdentStart (c : Char) : Bool := c.isAlpha || c = '_' || c = '$'

/-- Subsequent identifier character (`[a-zA-Z0-9_$]`). -/
def isIdentCh (c : Char) : Bool := isIdentStart c || c.isDigit

/-- `String.prototype.trim` on a character list. -/
def jsTrim (cs : List Char) : List Char :=
  ((cs.dropWhile isJsWs).reverse.dropWhile isJsWs).reverse

/-- The length of `dropWhile` output never exceeds the input length. -/
theorem length_dropWhile_le (p : Char → Bool) (l : List Char) :
    (l.dropWhile p).length ≤ l.length := by
  induction l with
  | nil => simp [List.dropWhile]
  | cons c cs ih =>
      by_cases h : p c = true
      · simp only [List.dropWhile, h]
        exact Nat.le_succ_of_le ih
      · simp [List.dropWhile, h]

/-! ## The dynamic value model

`DVal` is the subset of JavaScript runtime values that flow through the
validation and repair code in this development: `undefined`, `null`,
booleans, (finite) numbers, `NaN`, strings, arrays, and plain objects
(ordered key/value lists, mirroring JS own-property insertion order). -/

inductive DVal where
  | undef
  | nul
  | bool (b : Bool)
  | num (q : Rat)
  | nan
  | str (s : List Char)
  | arr (elems : List DVal)
  | obj (fields : List (Prod (List Char) DVal))
deriving Repr

/-- `getTypeName` from `errors/messages.ts`: the display name of a value's
JavaScript type (`typeof NaN` is `"number"`). Dates/Sets/Maps do not occur in
this development's value model. -/
def getTypeName : DVal → List Char
  | .nul => "null".data
  | .undef => "undefined".data
  | .arr _ => "array".data
  | .obj _ => "object".data
  | .bool _ => "boolean".data
  | .num _ => "number".data
  | .nan => "number".data
  | .str _ => "string".data

/-! ## Strict JSON parsing (`JSON.parse` model)

The repair orchestrator (`repair/repair.ts`) and `parseLLM`
(`schemas/base.ts`) both finish by calling the platform's strict
`JSON.parse`.  The model below implements the RFC 8259 grammar: the JSON
whitespace set, strings with the JSON escapes, numbers with the
leading-zero restriction, arrays, objects (a duplicated key keeps its first
position but the later value, as in JavaScript), and the literals.  Nested
values recurse on a fuel argument; the wrapper passes `length + 1` fuel,
which is sufficient since every nesting level consumes at least one
character. -/

/-- JSON (RFC 8259) insignificant whitespace. -/
def isJsonWs (c : Char) : Bool := c = ' ' || c = '\t' || c = '\n' || c = '\r'

/-- Drop JSON whitespace. -/
def jws (cs : List Char) : List Char := cs.dropWhile isJsonWs

/-- Numeric value of a hex digit, if any.  Works on the code point:
`0`–`9` are 48–57, `a`–`f` are 97–102, `A`–`F` are 65–70. -/
def hexDigitVal (c : Char) : Option Nat :=
  let n := c.toNat
  if n < 48 then none
  else if n ≤ 57 then some (n - 48)
  else if 97 ≤ n then (if n ≤ 102 then some (n - 87) else none)
  else if 65 ≤ n then (if n ≤ 70 then some (n - 55) else none)
  else none

/-- Natural number denoted by a digit list in the given base (digits assumed valid). -/
def digitsVal (base : Nat) (ds : List Char) : Nat :=
  ds.foldl (fun a c => a * base + ((hexDigitVal c).getD 0)) 0

/-- Decode the body of a JSON string literal after the opening quote.
Returns the decoded characters and the rest after the closing quote. -/
def jsonStrBody : List Char → Option (Prod (List Char) (List Char))
  | [] => none
  | '"' :: r => some ([], r)
  | '\\' :: e :: r =>
      match e with
      | 'u' =>
          match r with
          | a :: b :: c :: d :: r2 =>
              if isHexCh a && isHexCh b && isHexCh c && isHexCh d then
                match jsonStrBody r2 with
                | some (tl, rest) =>
                    some (Char.ofNat (digitsVal 16 [a, b, c, d]) :: tl, rest)
                | none => none
              else none
          | _ => none
      | _ =>
          let dec : Option Char :=
            if e = '"' then some '"'
            else if e = '\\' then some '\\'
            else if e = '/' then some '/'
            else if e = 'b' then some '\x08'
            else if e = 'f' then some '\x0c'
            else if e = 'n' then some '\n'
            else if e = 'r' then some '\r'
            else if e = 't' then some '\t'
            else none
          match dec with
          | some ch =>
              match jsonStrBody r with
              | some (tl, rest) => some (ch :: tl, rest)
              | none => none
          | none => none
  | c :: r =>
      if c.toNat < 0x20 then none
      else
        match jsonStrBody r with
        | some (tl, rest) => some (c :: tl, rest)
        | none => none

/-- Split off a maximal run of decimal digits. -/
def digitRun (cs : List Char) : Prod (List Char) (List Char) :=
  (cs.takeWhile isDigitCh, cs.dropWhile isDigitCh)

/-- Parse a JSON number token at the head of the input, as an exact rational.
Enforces the JSON grammar: optional minus, integer part without a leading
zero (unless it is exactly `0`), optional fraction, optional exponent. -/
def jsonNum (cs : List Char) : Option (Prod Rat (List Char)) :=
  let neg : Bool := cs.headD 'x' = '-'
  let cs1 := if neg then cs.tail else cs
  let (ip, cs2) := digitRun cs1
  if ip.isEmpty then none
  else if 1 < ip.length && ip.headD 'x' = '0' then none
  else
    let (fp, cs3) := match cs2 with
      | '.' :: r => digitRun r
      | _ => ([], cs2)
    if cs2.headD 'x' = '.' && fp.isEmpty then none
    else
      let expPart : Option (Prod Int (List Char)) := match cs3 with
        | 'e' :: r | 'E' :: r =>
            let (sgn, r1) : Prod Int (List Char) := match r with
              | '+' :: r2 => (1, r2)
              | '-' :: r2 => (-1, r2)
              | _ => (1, r)
            let (eds, r2) := digitRun r1
            if eds.isEmpty then none else some (sgn * (digitsVal 10 eds : Int), r2)
        | _ => some (0, cs3)
      match expPart with
      | none => none
      | some (ex, rest) =>
          let mant : Int := (if neg then -1 else 1) * (digitsVal 10 (ip ++ fp) : Int)
          let scale : Int := ex - (fp.length : Int)
          let q : Rat :=
            if 0 ≤ scale then (mant * (10 ^ scale.toNat) : Int)
            else (mant : Rat) / ((10 ^ (-scale).toNat : Int) : Rat)
          some (q, rest)

/-- Install a key in an object: a repeated key keeps its original position
but takes the later value (JavaScript object semantics under `JSON.parse`). -/
def objInstall (fs : List (Prod (List Char) DVal)) (k : List Char) (v : DVal) :
    List (Prod (List Char) DVal) :=
  match fs with
  | [] => [(k, v)]
  | (k2, v2) :: tl => if k2 = k then (k2, v) :: tl else (k2, v2) :: objInstall tl k v

/-- Parse one JSON value (fuel-recursive); returns the value and the rest. -/
def jsonVal (fuel : Nat) (cs : List Char) : Option (Prod DVal (List Char)) :=
  match fuel with
  | 0 => none
  | fu + 1 =>
    match jws cs with
    | 'n' :: 'u' :: 'l' :: 'l' :: r => some (.nul, r)
    | 't' :: 'r' :: 'u' :: 'e' :: r => some (.bool true, r)
    | 'f' :: 'a' :: 'l' :: 's' :: 'e' :: r => some (.bool false, r)
    | '"' :: r =>
        match jsonStrBody r with
        | some (s, rest) => some (.str s, rest)
        | none => none
    | '[' :: r =>
        match jws r with
        | ']' :: rest => some (.arr [], rest)
        | r2 => jsonItems fu r2 []
    | '\x7b' :: r =>
        match jws r with
        | '\x7d' :: rest => some (.obj [], rest)
        | r2 => jsonFields fu r2 []
    | cs2 => match jsonNum cs2 with
        | some (q, rest) => some (.num q, rest)
        | none => none
  where
    /-- Parse the non-empty element list of an array, accumulating. -/
    jsonItems (fuel : Nat) (cs : List Char) (acc : List DVal) :
        Option (Prod DVal (List Char)) :=
      match fuel with
      | 0 => none
      | fu + 1 =>
        match jsonVal fu cs with
        | none => none
        | some (v, r) =>
            match jws r with
            | ',' :: r2 => jsonItems fu r2 (acc ++ [v])
            | ']' :: r2 => some (.arr (acc ++ [v]), r2)
            | _ => none
    /-- Parse the non-empty member list of an object, accumulating. -/
    jsonFields (fuel : Nat) (cs : List Char) (acc : List (Prod (List Char) DVal)) :
        Option (Prod DVal (List Char)) :=
      match fuel with
      | 0 => none
      | fu + 1 =>
        match jws cs with
        | '"' :: r =>
            match jsonStrBody r with
            | none => none
            | some (k, r1) =>
                match jws r1 with
                | ':' :: r2 =>
                    match jsonVal fu r2 with
                    | none => none
                    | some (v, r3) =>
                        match jws r3 with
                        | ',' :: r4 => jsonFields fu r4 (objInstall acc k v)
                        | '\x7d' :: r4 => some (.obj (objInstall acc k v), r4)
                        | _ => none
                | _ => none
        | _ => none

/-- The model of strict `JSON.parse`: `some v` on success, `none` where the
platform call throws a `SyntaxError`. -/
def jsonParse (cs : List Char) : Option DVal :=
  match jsonVal (cs.length + 1) cs with
  | none => none
  | some (v, rest) => if (jws rest).isEmpty then some v else none

/-- `isValidJSON` from `repair/repair.ts`: a strict parse attempt. -/
def isValidJSON (cs : List Char) : Bool := (jsonParse cs).isSome

end Valai


namespace Valai

/-! ## Repair fixers

Each fixer is a pure text-to-text function transcribed from
`src/packages/core/src/repair/fixers/`.  The scanner-based fixers
(`removeJSONComments`, `fixTrailingCommas`, `tryCloseBrackets`) carry the
single-pass `inString`/`escapeNext` state of spec §4.1 through the
character list; the regex-based fixers (`fixUnquotedKeys`,
`fixSpecialNumbers`, `fixNumberFormats`) are transcriptions of the
JavaScript global-`replace` calls: scan left to right for a match of the
pattern, emit the substitution, continue after the matched span. -/

/-- Block-comment skipping for `removeJSONComments`: the `/*...*/` inner
loop.  The source loop (`while (i < input.length - 1)`) stops with one
character left, which the main loop then processes normally — an
unterminated block comment therefore leaves the final character to be
handled as ordinary input; the one-element case reproduces that. -/
def skipBlockComment : List Char → List Char
  | [] => []
  | [c] => [c]
  | c :: d :: r => if c = '*' && d = '/' then r else skipBlockComment (d :: r)

/-- `skipBlockComment` never lengthens the text. -/
theorem skipBlockComment_length_le : ∀ l : List Char, (skipBlockComment l).length ≤ l.length
  | [] => by simp [skipBlockComment]
  | [c] => by simp [skipBlockComment]
  | c :: d :: r => by
      have ih := skipBlockComment_length_le (d :: r)
      by_cases h : c = '*' && d = '/'
      · simp only [skipBlockComment, h, if_true, List.length_cons]
        omega
      · simp only [skipBlockComment, h, if_false, Bool.false_eq_true]
        simp only [List.length_cons] at ih ⊢
        omega

/-- `removeJSONComments` from `repair/fixers/comments.ts`, as a recursion
on the character list carrying the `inString`/`escapeNext` scanner state.
`//` skips to (but not past) the end of line; `/*` skips via
`skipBlockComment`; both only fire outside strings. -/
def rjcGo (fuel : Nat) (inS esc : Bool) (cs : List Char) : List Char :=
  match fuel, cs with
  | 0, _ => []
  | _, [] => []
  | fuel + 1, c :: r =>
      if esc then c :: rjcGo fuel inS false r
      else if c = '\\' && inS then c :: rjcGo fuel inS true r
      else if c = '"' then c :: rjcGo fuel (!inS) false r
      else if !inS && c = '/' && r.headD ' ' = '/' then
        rjcGo fuel false false (r.tail.dropWhile (fun x => x ≠ '\n'))
      else if !inS && c = '/' && r.headD ' ' = '*' then
        rjcGo fuel false false (skipBlockComment r.tail)
      else c :: rjcGo fuel inS false r

/-- `removeJSONComments(input)`: strip `//...` and `/*...*/` spans outside
strings.  Every loop iteration consumes at least one input character
(`skipBlockComment_length_le` and the `dropWhile` bound), so `length + 1`
fuel is never exhausted. -/
def removeJSONComments (input : List Char) : List Char :=
  rjcGo (input.length + 1) false false input

/-- `fixTrailingCommas` from `repair/fixers/commas.ts`: delete a comma
that is followed, after only whitespace, by `}` or `]`, when outside a
string. -/
def ftcGo (inS esc : Bool) : List Char → List Char
  | [] => []
  | c :: r =>
      if esc then c :: ftcGo inS false r
      else if c = '\\' && inS then c :: ftcGo inS true r
      else if c = '"' then c :: ftcGo (!inS) false r
      else if inS then c :: ftcGo inS false r
      else if c = ',' &&
          ((r.dropWhile isJsWs).headD ' ' = '\x7d' || (r.dropWhile isJsWs).headD ' ' = ']') then
        ftcGo inS false r
      else c :: ftcGo inS false r

/-- `fixTrailingCommas(input)` with the initial scanner state. -/
def fixTrailingCommas (input : List Char) : List Char := ftcGo false false input

/-- The bracket scan of `tryCloseBrackets` (`repair/fixers/brackets.ts`):
walk the text tracking the stack of expected closers (most recent first)
and the `inString` flag; an unmatched closer is ignored (popped only when
it equals the top of the stack). Returns the final stack and string state. -/
def tcbGo (stk : List Char) (inS esc : Bool) : List Char → Prod (List Char) Bool
  | [] => (stk, inS)
  | c :: r =>
      if esc then tcbGo stk inS false r
      else if c = '\\' && inS then tcbGo stk inS true r
      else if c = '"' then tcbGo stk (!inS) false r
      else if inS then tcbGo stk inS false r
      else if c = '\x7b' then tcbGo ('\x7d' :: stk) false false r
      else if c = '[' then tcbGo (']' :: stk) false false r
      else if c = '\x7d' || c = ']' then
        match stk with
        | t :: tl => if t = c then tcbGo tl false false r else tcbGo (t :: tl) false false r
        | [] => tcbGo [] false false r
      else tcbGo stk inS false r

/-- `tryCloseBrackets(input)`: append a closing quote when the scan ends
inside a string, then the outstanding closers innermost-first. -/
def tryCloseBrackets (input : List Char) : List Char :=
  let (stk, inS) := tcbGo [] false false input
  input ++ (if inS then ['"'] else []) ++ stk

/-- `fixSingleQuotes` from `repair/fixers/quotes.ts`: convert single-quote
string delimiters to double quotes; an escaped single quote inside a
single-quoted run becomes an escaped double quote; a backslash anywhere
copies itself and the next character verbatim. -/
def fsqGo (inD inS : Bool) : List Char → List Char
  | [] => []
  | '\\' :: [] => ['\\']
  | '\\' :: n :: r =>
      if inS && n = '\'' then '\\' :: '"' :: fsqGo inD inS r
      else '\\' :: n :: fsqGo inD inS r
  | c :: r =>
      if c = '"' && !inS then '"' :: fsqGo (!inD) inS r
      else if c = '\'' && !inD then '"' :: fsqGo inD (!inS) r
      else c :: fsqGo inD inS r

/-- `fixSingleQuotes(input)` with the initial quote states. -/
def fixSingleQuotes (input : List Char) : List Char := fsqGo false false input

/-- One attempted match of the `fixUnquotedKeys` pattern after a `{` or
`,`: whitespace, an identifier (`[a-zA-Z_$][a-zA-Z0-9_$]*`), whitespace,
then `:`.  Returns the leading whitespace, the identifier, and the rest
after the colon. -/
def keyMatch (cs : List Char) : Option (Prod (Prod (List Char) (List Char)) (List Char)) :=
  match cs.dropWhile isJsWs with
  | k :: kr =>
      if isIdentStart k then
        match (kr.dropWhile isIdentCh).dropWhile isJsWs with
        | ':' :: rest => some ((cs.takeWhile isJsWs, k :: kr.takeWhile isIdentCh), rest)
        | _ => none
      else none
  | [] => none

/-- A successful `keyMatch` consumes at least the colon, so the remainder
is strictly shorter than the input. -/
theorem keyMatch_length_lt {cs ws key rest : List Char}
    (h : keyMatch cs = some ((ws, key), rest)) : rest.length < cs.length := by
  unfold keyMatch at h
  have h1 := length_dropWhile_le isJsWs cs
  split at h
  next k kr hd =>
    split at h
    next hs =>
      split at h
      next rest2 hr =>
        simp only [Option.some.injEq, Prod.mk.injEq] at h
        obtain ⟨⟨-, -⟩, rfl⟩ := h
        have h2 := length_dropWhile_le isIdentCh kr
        have h3 := length_dropWhile_le isJsWs (kr.dropWhile isIdentCh)
        have h4 : ((kr.dropWhile isIdentCh).dropWhile isJsWs).length = rest2.length + 1 := by
          rw [hr]; simp
        have h5 : (cs.dropWhile isJsWs).length = kr.length + 1 := by
          rw [hd]; simp
        omega
      next => exact absurd h (by simp)
    next => exact absurd h (by simp)
  next => exact absurd h (by simp)

/-- `fixUnquotedKeys` from `repair/fixers/keys.ts`: the global replace of
`([{,]\s*)([a-zA-Z_$][a-zA-Z0-9_$]*)\s*:` by `$1"$2":` — after a `{` or
`,`, wrap the identifier in double quotes (dropping any whitespace between
the identifier and the colon) and continue after the colon. -/
def fukGo (fuel : Nat) (cs : List Char) : List Char :=
  match fuel, cs with
  | 0, _ => []
  | _, [] => []
  | fuel + 1, c :: r =>
      if c = '\x7b' || c = ',' then
        match keyMatch r with
        | some ((ws, key), rest) =>
            c :: (ws ++ '"' :: (key ++ '"' :: ':' :: fukGo fuel rest))
        | none => c :: fukGo fuel r
      else c :: fukGo fuel r

/-- `fixUnquotedKeys(input)`: every iteration consumes at least one input
character (`keyMatch_length_lt`), so `length + 1` fuel is never
exhausted. -/
def fixUnquotedKeys (input : List Char) : List Char := fukGo (input.length + 1) input

end Valai

namespace Valai

/-- Word-boundary test for the trailing `\b` of the special-number and
number-format patterns: the next character (if any) is not a `\w`
character. -/
def atWordBoundary (cs : List Char) : Bool :=
  match cs with
  | [] => true
  | c :: _ => !isWordChar c

/-- The optional leading minus of the `/:\s*-?Infinity\b/` pattern. -/
def minusDrop (allowMinus : Bool) (l : List Char) : List Char :=
  if allowMinus then
    match l with
    | '-' :: t => t
    | _ => l
  else l

/-- `minusDrop` never lengthens the text. -/
theorem minusDrop_length_le (b : Bool) (l : List Char) :
    (minusDrop b l).length ≤ l.length := by
  unfold minusDrop
  split
  · split
    next t => simp only [List.length_cons]; omega
    next => exact Nat.le_refl _
  · exact Nat.le_refl _

/-- One pass of a `input.replace(/:\s*LIT\b/g, repl)` call
(`repair/fixers/numbers.ts`): at each colon, if whitespace and the literal
follow (optionally preceded by `-` when `allowMinus` is set) with a word
boundary after it, the whole match is replaced by `repl` and scanning
resumes after the literal. -/
def replColonGo (fuel : Nat) (allowMinus : Bool) (lit repl : List Char) (cs : List Char) :
    List Char :=
  match fuel, cs with
  | 0, _ => []
  | _, [] => []
  | fuel + 1, c :: r =>
      if c = ':' then
        if lit.isPrefixOf (minusDrop allowMinus (r.dropWhile isJsWs)) &&
            atWordBoundary ((minusDrop allowMinus (r.dropWhile isJsWs)).drop lit.length) then
          repl ++ replColonGo fuel allowMinus lit repl
            ((minusDrop allowMinus (r.dropWhile isJsWs)).drop lit.length)
        else ':' :: replColonGo fuel allowMinus lit repl r
      else c :: replColonGo fuel allowMinus lit repl r

/-- The full `input.replace(/:\s*LIT\b/g, repl)` call: one scan with
`length + 1` fuel (every iteration consumes at least the colon). -/
def replaceColonLit (allowMinus : Bool) (lit repl input : List Char) : List Char :=
  replColonGo (input.length + 1) allowMinus lit repl input

/-- `fixSpecialNumbers` from `repair/fixers/numbers.ts`: the sequence of
global replaces substituting `NaN`, `Infinity`/`-Infinity` and `undefined`
value occurrences (after a colon) by `null`, or by their quoted string
forms when `asStrings` is set. -/
def fixSpecialNumbers (input : List Char) (asStrings : Bool := false) : List Char :=
  let s1 := if asStrings then
      replaceColonLit false "NaN".data ": \"NaN\"".data input
    else
      replaceColonLit false "NaN".data ": null".data input
  let s2 := if asStrings then
      replaceColonLit false "-Infinity".data ": \"-Infinity\"".data
        (replaceColonLit false "Infinity".data ": \"Infinity\"".data s1)
    else
      replaceColonLit true "Infinity".data ": null".data s1
  replaceColonLit false "undefined".data ": null".data s2

/-- Pass 1 of `fixNumberFormats`: `input.replace(/:\s*\.(\d)/g, ': 0.$1')`
— insert a leading zero before a bare decimal point in value position
(the match captures a single digit; scanning continues after it). -/
def fnfLeadingDotGo (fuel : Nat) (cs : List Char) : List Char :=
  match fuel, cs with
  | 0, _ => []
  | _, [] => []
  | fuel + 1, c :: r =>
      if c = ':' then
        match r.dropWhile isJsWs with
        | '.' :: d :: rest =>
            if isDigitCh d then
              ':' :: ' ' :: '0' :: '.' :: d :: fnfLeadingDotGo fuel rest
            else ':' :: fnfLeadingDotGo fuel r
        | _ => ':' :: fnfLeadingDotGo fuel r
      else c :: fnfLeadingDotGo fuel r

/-- Pass 1 with its fuel (each iteration consumes at least one character). -/
def fnfLeadingDot (input : List Char) : List Char := fnfLeadingDotGo (input.length + 1) input

/-- Pass 2 of `fixNumberFormats`:
`replace(/:\s*(\d+)\.\s*(,|\}|\])/g, ': $1.0$2')` — append a zero after a
trailing bare decimal point in value position (whitespace between the dot
and the closer is dropped by the replacement). -/
def fnfTrailingDotGo (fuel : Nat) (cs : List Char) : List Char :=
  match fuel, cs with
  | 0, _ => []
  | _, [] => []
  | fuel + 1, c :: r =>
      if c = ':' then
        match (r.dropWhile isJsWs).dropWhile isDigitCh with
        | '.' :: r2 =>
            if ((r.dropWhile isJsWs).takeWhile isDigitCh).isEmpty then
              ':' :: fnfTrailingDotGo fuel r
            else
              match r2.dropWhile isJsWs with
              | cl :: rest =>
                  if cl = ',' || cl = '\x7d' || cl = ']' then
                    ':' :: ' ' :: ((r.dropWhile isJsWs).takeWhile isDigitCh ++
                      '.' :: '0' :: cl :: fnfTrailingDotGo fuel rest)
                  else ':' :: fnfTrailingDotGo fuel r
              | [] => ':' :: fnfTrailingDotGo fuel r
        | _ => ':' :: fnfTrailingDotGo fuel r
      else c :: fnfTrailingDotGo fuel r

/-- Pass 2 with its fuel. -/
def fnfTrailingDot (input : List Char) : List Char :=
  fnfTrailingDotGo (input.length + 1) input

/-- Decimal rendering of a natural number, for the replacement value of
the `parseInt(digits, base)` interpolations. -/
def natDecimal (n : Nat) : List Char := (Nat.repr n).data

/-- Passes 3–5 of `fixNumberFormats`:
`replace(/:\s*0x([0-9a-fA-F]+)\b/g, ...)` and its octal (`0o`) and binary
(`0b`) analogues — rewrite the prefixed literal in value position to its
base-10 form computed by `parseInt`. -/
def fnfRadixGo (fuel : Nat) (tag : Char) (digitOk : Char → Bool) (base : Nat)
    (cs : List Char) : List Char :=
  match fuel, cs with
  | 0, _ => []
  | _, [] => []
  | fuel + 1, c :: r =>
      if c = ':' then
        match r.dropWhile isJsWs with
        | '0' :: t :: r2 =>
            if t = tag then
              if !(r2.takeWhile digitOk).isEmpty && atWordBoundary (r2.dropWhile digitOk) then
                ':' :: ' ' :: (natDecimal (digitsVal base (r2.takeWhile digitOk)) ++
                  fnfRadixGo fuel tag digitOk base (r2.dropWhile digitOk))
              else ':' :: fnfRadixGo fuel tag digitOk base r
            else ':' :: fnfRadixGo fuel tag digitOk base r
        | _ => ':' :: fnfRadixGo fuel tag digitOk base r
      else c :: fnfRadixGo fuel tag digitOk base r

/-- One radix pass with its fuel. -/
def fnfRadix (tag : Char) (digitOk : Char → Bool) (base : Nat) (input : List Char) :
    List Char :=
  fnfRadixGo (input.length + 1) tag digitOk base input

/-- `fixNumberFormats` from `repair/fixers/numbers.ts`: the five
sequential global replaces (leading dot, trailing dot, hex, octal,
binary). -/
def fixNumberFormats (input : List Char) : List Char :=
  fnfRadix 'b' isBinCh 2
    (fnfRadix 'o' isOctCh 8
      (fnfRadix 'x' isHexCh 16
        (fnfTrailingDot (fnfLeadingDot input))))

end Valai

namespace Valai

/-! ## Extractors (`repair/extractors/markdown.ts`, `text.ts`) -/

/-- The lazy group of a fenced block: the shortest run up to the next
"```" fence, together with the rest after that fence; `none` when no
closing fence exists. -/
def findCloseFence : List Char → Option (Prod (List Char) (List Char))
  | '`' :: '`' :: '`' :: r => some ([], r)
  | c :: r => (findCloseFence r).map (fun p => (c :: p.1, p.2))
  | [] => none

/-- Leftmost match of the json-tagged fence regex
`/```(?:json|JSON)\s*\n?([\s\S]*?)```/`: at the first "```json"/"```JSON"
occurrence that has a closing fence, the group runs from after the tag and
whitespace to the next fence.  (A `\s*`-greedy, lazy-group match cannot
contain a fence, and the optional `\n?` is absorbed by `\s*`.) -/
def mdTagScan : List Char → Option (List Char)
  | [] => none
  | c :: r =>
      if "```json".data.isPrefixOf (c :: r) || "```JSON".data.isPrefixOf (c :: r) then
        match findCloseFence (((c :: r).drop 7).dropWhile isJsWs) with
        | some (g, _) => some g
        | none => mdTagScan r
      else mdTagScan r

/-- Leftmost match of the generic fence regex `/```\s*\n?([\s\S]*?)```/`. -/
def mdGenScan : List Char → Option (List Char)
  | [] => none
  | c :: r =>
      if c = '`' && "``".data.isPrefixOf r then
        match findCloseFence ((r.drop 2).dropWhile isJsWs) with
        | some (g, _) => some g
        | none => mdGenScan r
      else mdGenScan r

/-- Leftmost match of an inline-code span regex such as `/`(\{[^`]*\})`/`:
a backtick immediately followed by the opening bracket, a backtick-free
run whose final character is the closing bracket, then a backtick.
Returns the group (brackets included). -/
def inlineScan (oc cc : Char) : List Char → Option (List Char)
  | [] => none
  | c :: r =>
      if c = '`' && r.headD ' ' = oc then
        match (r.dropWhile (fun x => x ≠ '`')) with
        | '`' :: _ =>
            if (r.takeWhile (fun x => x ≠ '`')).getLast? = some cc &&
                1 < (r.takeWhile (fun x => x ≠ '`')).length then
              some (r.takeWhile (fun x => x ≠ '`'))
            else inlineScan oc cc r
        | _ => inlineScan oc cc r
      else inlineScan oc cc r

/-- The result of an extractor: whether extraction was performed and the
extracted (or original) text.  The source's extra metadata (`language`,
`startIndex`, `endIndex`) is not consumed by the orchestrator and is
omitted. -/
structure Extraction where
  extracted : Bool
  text : List Char
deriving Repr

/-- `extractFromMarkdown` from `repair/extractors/markdown.ts`: try a
json-tagged fenced block, then a generic fenced block whose trimmed
content starts with `{` or `[`, then inline single-backtick spans holding
a bracketed run; otherwise report the trimmed input unextracted.  A match
whose group is the empty string is falsy in JavaScript
(`jsonBlockMatch?.[1]`), so it falls through exactly as in the source. -/
def extractFromMarkdown (input : List Char) : Extraction :=
  let t := jsTrim input
  match mdTagScan t with
  | some g =>
      if !g.isEmpty then { extracted := true, text := jsTrim g }
      else extractFromMarkdownRest t
  | none => extractFromMarkdownRest t
  where
    /-- The generic-fence and inline fallbacks. -/
    extractFromMarkdownRest (t : List Char) : Extraction :=
      let generic : Option (List Char) :=
        match mdGenScan t with
        | some g =>
            if !g.isEmpty &&
                ((jsTrim g).headD ' ' = '\x7b' || (jsTrim g).headD ' ' = '[') then
              some (jsTrim g)
            else none
        | none => none
      match generic with
      | some content => { extracted := true, text := content }
      | none =>
          match inlineScan '\x7b' '\x7d' t with
          | some g => { extracted := true, text := g }
          | none =>
              match inlineScan '[' ']' t with
              | some g => { extracted := true, text := g }
              | none => { extracted := false, text := t }

/-- The balanced-span scan of `findBalancedJSON`
(`repair/extractors/text.ts`), started at the first occurrence of the
opening character: returns the length of the span ending where the depth
counter returns to zero, `none` when the text ends first. -/
def fbjLen (oc cc : Char) (depth : Nat) (inS esc : Bool) : List Char → Option Nat
  | [] => none
  | c :: r =>
      if esc then (fbjLen oc cc depth inS false r).map (· + 1)
      else if c = '\\' && inS then (fbjLen oc cc depth inS true r).map (· + 1)
      else if c = '"' then (fbjLen oc cc depth (!inS) false r).map (· + 1)
      else if inS then (fbjLen oc cc depth inS false r).map (· + 1)
      else if c = oc then (fbjLen oc cc (depth + 1) false false r).map (· + 1)
      else if c = cc then
        if depth = 1 then some 1
        else (fbjLen oc cc (depth - 1) false false r).map (· + 1)
      else (fbjLen oc cc depth inS false r).map (· + 1)

/-- `findBalancedJSON(text, openChar, closeChar)`: the slice from the
first occurrence of the opening character to the position where its
balance closes, scanned string- and escape-aware. -/
def findBalancedJSON (text : List Char) (oc cc : Char) : Option (List Char) :=
  match text.findIdx? (fun x => x = oc) with
  | none => none
  | some i =>
      match fbjLen oc cc 0 false false (text.drop i) with
      | some n => some ((text.drop i).take n)
      | none => none

/-- `extractJSONFromText` from `repair/extractors/text.ts`: pass an
already-JSON-shaped text through unchanged; otherwise take the first
balanced `{...}` span, then the first balanced `[...]` span; otherwise
report the trimmed input unextracted. -/
def extractJSONFromText (input : List Char) : Extraction :=
  let t := jsTrim input
  if (t.headD ' ' = '\x7b' && t.getLastD ' ' = '\x7d') ||
      (t.headD ' ' = '[' && t.getLastD ' ' = ']') then
    { extracted := false, text := t }
  else
    match findBalancedJSON t '\x7b' '\x7d' with
    | some j => { extracted := true, text := j }
    | none =>
        match findBalancedJSON t '[' ']' with
        | some j => { extracted := true, text := j }
        | none => { extracted := false, text := t }

/-! ## The repair orchestrator (`repair/repair.ts`) -/

/-- The enabled-stage flags of `RepairOptions`; every stage defaults to
enabled (`DEFAULT_OPTIONS`). -/
structure RepairOptions where
  markdown : Bool := true
  extractFromText : Bool := true
  removeComments : Bool := true
  singleQuotes : Bool := true
  unquotedKeys : Bool := true
  trailingCommas : Bool := true
  closeBrackets : Bool := true
  handleSpecialNumbers : Bool := true
  fixNumberFormats : Bool := true

/-- The all-defaults options record. -/
def defaultRepairOptions : RepairOptions := {}

/-- One fixer stage: apply the stage when enabled and log its tag when the
text changed (`text !== before`). -/
def fixerStage (flag : Bool) (tag : List Char) (f : List Char → List Char)
    (st : Prod (List Char) (List (List Char))) : Prod (List Char) (List (List Char)) :=
  if flag then
    if f st.1 = st.1 then st else (f st.1, st.2 ++ [tag])
  else st

/-- One extractor stage: replace the text and log when `result.extracted`. -/
def extractorStage (flag : Bool) (tag : List Char) (f : List Char → Extraction)
    (st : Prod (List Char) (List (List Char))) : Prod (List Char) (List (List Char)) :=
  if flag then
    if (f st.1).extracted then ((f st.1).text, st.2 ++ [tag]) else st
  else st

/-- The nine-stage text pipeline of `repairJSON`, in source order, with
the accumulated action log (stage tags). -/
def repairPipeline (opts : RepairOptions) (input : List Char) :
    Prod (List Char) (List (List Char)) :=
  (input, [])
  |> extractorStage opts.markdown "markdown".data extractFromMarkdown
  |> extractorStage opts.extractFromText "extractFromText".data extractJSONFromText
  |> fixerStage opts.removeComments "removeComments".data removeJSONComments
  |> fixerStage opts.singleQuotes "singleQuotes".data fixSingleQuotes
  |> fixerStage opts.unquotedKeys "unquotedKeys".data fixUnquotedKeys
  |> fixerStage opts.handleSpecialNumbers "specialNumbers".data (fixSpecialNumbers ·)
  |> fixerStage opts.fixNumberFormats "numberFormats".data fixNumberFormats
  |> fixerStage opts.trailingCommas "trailingCommas".data fixTrailingCommas
  |> fixerStage opts.closeBrackets "closeBrackets".data tryCloseBrackets

/-- The outcome of `repairJSON`: success of the final strict parse, the
parsed data, the final text, whether anything changed relative to the
original input, and the action log (`error` is equivalent to
`success = false` and is not duplicated). -/
structure RepairResult where
  success : Bool
  data : Option DVal
  text : List Char
  repaired : Bool
  repairs : List (List Char)
deriving Repr

/-- `repairJSON(input, options)` from `repair/repair.ts`: run the enabled
stages in the fixed order, then attempt a strict parse of the final text;
`repaired` is the byte comparison of the final text against the original
input. -/
def repairJSON (input : List Char) (opts : RepairOptions := {}) : RepairResult :=
  let (text, repairs) := repairPipeline opts input
  match jsonParse text with
  | some v =>
      { success := true, data := some v, text := text,
        repaired := decide (text ≠ input), repairs := repairs }
  | none =>
      { success := false, data := none, text := text,
        repaired := decide (text ≠ input), repairs := repairs }

/-- `parseAndRepair` (`repair/repair.ts`): the throwing wrapper. -/
def parseAndRepair (input : List Char) (opts : RepairOptions := {}) : Option DVal :=
  (repairJSON input opts).data

/-- `isRepairableJSON` (`repair/repair.ts`). -/
def isRepairableJSON (input : List Char) (opts : RepairOptions := {}) : Bool :=
  (repairJSON input opts).success

end Valai

namespace Valai

/-! ## Issues and the parse context (`parse/context.ts`, `errors/valai-error.ts`)

A `ParseContext` in the source is a mutable node holding the current path
and an issue list, with a parent back-reference; `addIssue` appends the
issue to the node and, through `collectIssueInParent`, to every ancestor
up to the root.  The embedding keeps one issue list per context node in a
store (a list indexed by creation order); a context value carries its own
store index, its ancestor indices (nearest first — for a `child` this is
the creating context and its ancestors, for a `sibling` it is the creating
context's own ancestor list, mirroring `parent: this.parent`), and its
path.  Issues are embedded with their `code`-specific payload fields; the
rendered `message` string (a catalog lookup) is omitted. -/

/-- One segment of a structural path: an object key or an array index. -/
inductive Seg where
  | key (k : List Char)
  | idx (i : Nat)
deriving Repr

/-- A validation issue (without its rendered message). -/
inductive Issue where
  | invalidType (path : List Seg) (expected received : List Char)
  | tooSmall (path : List Seg) (ty : List Char) (minimum : Rat) (inclusive exact : Bool)
  | tooBig (path : List Seg) (ty : List Char) (maximum : Rat) (inclusive : Bool)
  | unrecognizedKeys (path : List Seg) (keys : List (List Char))
  | invalidUnion (path : List Seg) (unionErrors : List Issue)
deriving Repr

/-- The per-call store of issue lists, indexed by context creation order;
index 0 is the root context's list. -/
abbrev IssueStore := List (List Issue)

/-- A context handle: own store index, ancestor indices (nearest first),
and the structural path. -/
structure Ctx where
  selfIdx : Nat
  ancestors : List Nat
  path : List Seg

/-- Update the list at one index of the store. -/
def updNth (n : Nat) (f : List Issue → List Issue) : IssueStore → IssueStore
  | [] => []
  | x :: xs =>
      match n with
      | 0 => f x :: xs
      | n + 1 => x :: updNth n f xs

/-- The issue list of a node. -/
def issuesAt (st : IssueStore) (i : Nat) : List Issue := st.getD i []

/-- `ParseContext.addIssue` + `collectIssueInParent`: append the issue to
this context's list and to every ancestor's list. -/
def addIssue (cx : Ctx) (iss : Issue) (st : IssueStore) : IssueStore :=
  (cx.selfIdx :: cx.ancestors).foldl (fun s i => updNth i (· ++ [iss]) s) st

/-- `ParseContext.child(data, pathSegment)`: a fresh node whose parent is
the creating context and whose path gains one segment. -/
def mkChild (cx : Ctx) (seg : Seg) (st : IssueStore) : Prod Ctx IssueStore :=
  ({ selfIdx := st.length, ancestors := cx.selfIdx :: cx.ancestors,
     path := cx.path ++ [seg] }, st ++ [[]])

/-- `ParseContext.sibling(data)`: a fresh node at the same path whose
parent is the creating context's parent (`parent: this.parent`). -/
def mkSibling (cx : Ctx) (st : IssueStore) : Prod Ctx IssueStore :=
  ({ selfIdx := st.length, ancestors := cx.ancestors, path := cx.path }, st ++ [[]])

/-- `ParseContext.hasIssues` for a node. -/
def hasIssues (cx : Ctx) (st : IssueStore) : Bool := !(issuesAt st cx.selfIdx).isEmpty

/-! ## Coercions (lenient mode) -/

/-- `Number(string)` — ECMAScript `ToNumber` on strings, modelled on the
finite fragment this code exercises: whitespace trimming, the empty string
(`0`), signed decimal literals with optional fraction and exponent, and
`0x`/`0o`/`0b` radix literals.  `none` is `NaN`; infinite results are
outside the model. -/
def jsToNumber (s : List Char) : Option Rat :=
  let t := jsTrim s
  if t.isEmpty then some 0
  else
    let (sgn, t1) : Prod Rat (List Char) := match t with
      | '-' :: r => (-1, r)
      | '+' :: r => (1, r)
      | _ => (1, t)
    match t1 with
    | '0' :: 'x' :: ds =>
        if sgn = 1 && !ds.isEmpty && ds.all isHexCh then
          some (digitsVal 16 ds : Nat)
        else none
    | '0' :: 'o' :: ds =>
        if sgn = 1 && !ds.isEmpty && ds.all isOctCh then
          some (digitsVal 8 ds : Nat)
        else none
    | '0' :: 'b' :: ds =>
        if sgn = 1 && !ds.isEmpty && ds.all isBinCh then
          some (digitsVal 2 ds : Nat)
        else none
    | _ =>
        let (ip, r1) := digitRun t1
        let (fp, r2) := match r1 with
          | '.' :: r => digitRun r
          | _ => ([], r1)
        let dotSeen := r1.headD ' ' = '.'
        if ip.isEmpty && fp.isEmpty then none
        else
          let expPart : Option (Prod Int (List Char)) := match r2 with
            | 'e' :: r | 'E' :: r =>
                let (es, r3) : Prod Int (List Char) := match r with
                  | '+' :: r4 => (1, r4)
                  | '-' :: r4 => (-1, r4)
                  | _ => (1, r)
                let (eds, r5) := digitRun r3
                if eds.isEmpty then none else some (es * (digitsVal 10 eds : Int), r5)
            | _ => some (0, r2)
          match expPart with
          | none => none
          | some (ex, rest) =>
              if !rest.isEmpty || (dotSeen && fp.isEmpty && ip.isEmpty) then none
              else
                let mant : Rat := (digitsVal 10 (ip ++ fp) : Nat)
                let scale : Int := ex - (fp.length : Int)
                let mag : Rat :=
                  if 0 ≤ scale then mant * ((10 ^ scale.toNat : Nat) : Rat)
                  else mant / ((10 ^ (-scale).toNat : Nat) : Rat)
                some (sgn * mag)

/-- Integer rendering. -/
def intDecimal (i : Int) : List Char := (Int.repr i).data

mutual

/-- `String(value)` — ECMAScript `ToString`, modelled on the fragment this
code exercises: primitives, finite-decimal numbers (rendered exactly),
arrays joined by commas, plain objects as `[object Object]`. -/
def jsToString : DVal → List Char
  | .str s => s
  | .bool true => "true".data
  | .bool false => "false".data
  | .nul => "null".data
  | .undef => "undefined".data
  | .nan => "NaN".data
  | .num q =>
      if q.den = 1 then intDecimal q.num
      else
        -- finite-decimal rendering: smallest scale whose product is integral
        match (List.range 30).find? (fun k => ((q * ((10 ^ k : Nat) : Rat)).den = 1)) with
        | some k =>
            let scaled : Int := (q * ((10 ^ k : Nat) : Rat)).num
            let mag : Nat := scaled.natAbs
            let digits := natDecimal mag
            let padded := List.replicate (k + 1 - digits.length) '0' ++ digits
            let ipart := padded.take (padded.length - k)
            let fpart := padded.drop (padded.length - k)
            (if scaled < 0 then ['-'] else []) ++ ipart ++ '.' :: fpart
        | none => "?".data
  | .arr es => List.intercalate [','] (jsToStringList es)
  | .obj _ => "[object Object]".data

/-- `jsToString` over the elements of an array. -/
def jsToStringList : List DVal → List (List Char)
  | [] => []
  | v :: tl => jsToString v :: jsToStringList tl

end

/-! ## The schema tree and its validate methods (`schemas/*.ts`)

The embedded variants are the ones the claims exercise: string and number
with their ordered check lists, array with its length options, object with
its unknown-keys policy, union, and the optional/nullable/default
wrappers. -/

/-- String checks (`ValaiStringDef.checks`), embedded fragment: the length
bounds (the check kinds the claims exercise). -/
inductive StrCheck where
  | minLen (n : Nat)
  | maxLen (n : Nat)
deriving Repr, DecidableEq

/-- Number checks (`ValaiNumberDef.checks`), embedded fragment. -/
inductive NumCheck where
  | minVal (q : Rat) (inclusive : Bool)
  | maxVal (q : Rat) (inclusive : Bool)
  | intCk
deriving Repr, DecidableEq

/-- The unknown-keys policy of an object schema. -/
inductive UnknownKeys where
  | strict
  | strip
  | passthrough
deriving Repr, DecidableEq

mutual

/-- A schema node (the `_def` tree reachable from `_parse`).  The member
array of a union and the shape record of an object are inlined as the
mutual list types `SchemaList` and `ShapeList` (ordered, exactly the
source's arrays/records) so that validation is a structural recursion
over the schema tree. -/
inductive VSchema where
  | str (checks : List StrCheck)
  | num (checks : List NumCheck)
  | arr (elem : VSchema) (minLength maxLength exactLength : Option Nat)
  | obj (shape : ShapeList) (unknown : UnknownKeys)
  | union (options : SchemaList)
  | opt (inner : VSchema)
  | nullable (inner : VSchema)
  | dflt (inner : VSchema) (defaultValue : DVal)
deriving Repr

/-- The ordered member schemas of a union. -/
inductive SchemaList where
  | nil
  | cons (head : VSchema) (tail : SchemaList)
deriving Repr

/-- The ordered `key: schema` entries of an object shape. -/
inductive ShapeList where
  | nil
  | cons (key : List Char) (sch : VSchema) (tail : ShapeList)
deriving Repr

end

/-- Build a `SchemaList` from a list literal. -/
def schemaListOf : List VSchema → SchemaList
  | [] => .nil
  | s :: tl => .cons s (schemaListOf tl)

/-- Build a `ShapeList` from a list literal. -/
def shapeOf : List (Prod (List Char) VSchema) → ShapeList
  | [] => .nil
  | (k, s) :: tl => .cons k s (shapeOf tl)

/-- The declared keys of a shape, in order (`Object.keys(this.shape)`). -/
def shapeKeys : ShapeList → List (List Char)
  | .nil => []
  | .cons k _ tl => k :: shapeKeys tl

/-- Parse mode (`ParseMode`): `strict` or `llm`. -/
inductive PMode where
  | strict
  | llm
deriving Repr, DecidableEq

/-- `LLMParseOptions` with its documented defaults. -/
structure LLMOpts where
  coerce : Bool := true
  repair : Bool := true
  extractFromMarkdown : Bool := true
  useDefaults : Bool := true
deriving Repr

/-- The mode and options carried by every context of one call. -/
structure POpts where
  mode : PMode
  llm : LLMOpts := {}
deriving Repr

/-- `ParseContext.shouldCoerce`. -/
def shouldCoerce (o : POpts) : Bool := o.mode = PMode.llm && o.llm.coerce

/-- `ParseContext.shouldUseDefaults`. -/
def shouldUseDefaults (o : POpts) : Bool := o.mode = PMode.llm && o.llm.useDefaults

/-- First field value for a key, JavaScript property lookup. -/
def lookupField (fields : List (Prod (List Char) DVal)) (k : List Char) : Option DVal :=
  match fields with
  | [] => none
  | (k2, v) :: tl => if k2 = k then some v else lookupField tl k

/-- Whether an object has a key (`key in input`). -/
def hasField (fields : List (Prod (List Char) DVal)) (k : List Char) : Bool :=
  (lookupField fields k).isSome

/-- `ctx.addInvalidTypeIssue(expected, received?)`: received defaults to
the current data's type name. -/
def addInvalidType (cx : Ctx) (expected : List Char) (received : DVal) (st : IssueStore) :
    IssueStore :=
  addIssue cx (.invalidType cx.path expected (getTypeName received)) st

/-- One string check against the running value (`ValaiString._parse`). -/
def strCheckIssues (cx : Ctx) (v : List Char) (st : IssueStore) : StrCheck → IssueStore
  | .minLen n =>
      if v.length < n then
        addIssue cx (.tooSmall cx.path "string".data (n : Rat) true false) st
      else st
  | .maxLen n =>
      if n < v.length then
        addIssue cx (.tooBig cx.path "string".data (n : Rat) true) st
      else st

/-- One number check (`ValaiNumber._parse`). -/
def numCheckIssues (cx : Ctx) (q : Rat) (st : IssueStore) : NumCheck → IssueStore
  | .minVal m inclusive =>
      if (if inclusive then q < m else q ≤ m) then
        addIssue cx (.tooSmall cx.path "number".data m inclusive false) st
      else st
  | .maxVal m inclusive =>
      if (if inclusive then m < q else m ≤ q) then
        addIssue cx (.tooBig cx.path "number".data m inclusive) st
      else st
  | .intCk =>
      if q.den ≠ 1 then
        addIssue cx (.invalidType cx.path "integer".data "float".data) st
      else st

end Valai

namespace Valai

/-! ## `_parse` (recursive validation over the context store)

`parseV s opts d cx st` is `s._parse(ctx)` where `ctx` has data `d`,
handle `cx`, and issue store `st`; the returned `Option DVal` is the
source's `ParseReturnType` (`valid(value)` / `invalid()`), and the
returned store carries all issue appends performed during the call. -/

/-- The element loop of `ValaiArray._parse`, over a given element parser:
validate every element in a child context at its index; invalid elements
are skipped in the collected output (the whole array is invalidated by
their issues). -/
def parseItemsWith (pf : DVal → Ctx → IssueStore → Prod (Option DVal) IssueStore) :
    List DVal → Nat → Ctx → IssueStore → Prod (List DVal) IssueStore
  | [], _, _, st => ([], st)
  | x :: tl, i, cx, st =>
      let (childCx, st1) := mkChild cx (.idx i) st
      let (r, st2) := pf x childCx st1
      let (restRes, st3) := parseItemsWith pf tl (i + 1) cx st2
      match r with
      | some v => (v :: restRes, st3)
      | none => (restRes, st3)

mutual

/-- The `_parse` methods of the embedded schema variants, dispatching on
the node (string.ts, number.ts, the array/object/union files, and the
wrapper classes of base.ts). -/
def parseV : VSchema → POpts → DVal → Ctx → IssueStore → Prod (Option DVal) IssueStore
  | .str checks => fun opts d cx st =>
      -- ValaiString._parse: lenient stringification, type check, check loop
      let v := if shouldCoerce opts then
          match d with
          | .undef => d
          | .nul => d
          | .str _ => d
          | other => .str (jsToString other)
        else d
      match v with
      | .str sv =>
          let st2 := checks.foldl (fun acc ck => strCheckIssues cx sv acc ck) st
          if hasIssues cx st2 then (none, st2) else (some (.str sv), st2)
      | other => (none, addInvalidType cx "string".data other st)
  | .num checks => fun opts d cx st =>
      -- ValaiNumber._parse: lenient Number() coercion (kept only when not
      -- NaN), type check, explicit NaN rejection, check loop
      let v := if shouldCoerce opts then
          match d with
          | .str sv =>
              match jsToNumber sv with
              | some q => .num q
              | none => d
          | other => other
        else d
      match v with
      | .num q =>
          let st2 := checks.foldl (fun acc ck => numCheckIssues cx q acc ck) st
          if hasIssues cx st2 then (none, st2) else (some (.num q), st2)
      | .nan => (none, addIssue cx
          (.invalidType cx.path "number".data (getTypeName (.str "NaN".data))) st)
      | other => (none, addInvalidType cx "number".data other st)
  | .arr elem minL maxL exactL => fun opts d cx st =>
      match d with
      | .arr items =>
          let st1 := match minL with
            | some n => if items.length < n then
                addIssue cx (.tooSmall cx.path "array".data (n : Rat) true false) st
              else st
            | none => st
          let st2 := match maxL with
            | some n => if n < items.length then
                addIssue cx (.tooBig cx.path "array".data (n : Rat) true) st1
              else st1
            | none => st1
          let st3 := match exactL with
            | some n => if items.length ≠ n then
                addIssue cx (.tooSmall cx.path "array".data (n : Rat) true true) st2
              else st2
            | none => st2
          let (vals, st4) := parseItemsWith (parseV elem opts) items 0 cx st3
          if hasIssues cx st4 then (none, st4) else (some (.arr vals), st4)
      | other => (none, addInvalidType cx "array".data other st)
  | .obj shape unknown => fun opts d cx st =>
      match d with
      | .obj fields =>
          let (result, st1) := parseShape shape opts fields cx st
          let extraKeys := (fields.map (fun p => p.1)).filter
            (fun k => !(shapeKeys shape).contains k)
          let (result2, st2) :=
            if extraKeys.isEmpty then (result, st1)
            else
              match unknown with
              | .strict => (result, addIssue cx (.unrecognizedKeys cx.path extraKeys) st1)
              | .passthrough =>
                  (result ++ extraKeys.filterMap
                    (fun k => (lookupField fields k).map (fun v => (k, v))), st1)
              | .strip => (result, st1)
          if hasIssues cx st2 then (none, st2) else (some (.obj result2), st2)
      | other => (none, addInvalidType cx "object".data other st)
  | .union options => fun opts d cx st =>
      -- ValaiUnion._parse: trial of each member in a sibling context
      match parseUnionOpts options opts d cx st [] with
      | ((some v, _), st2) => (some v, st2)
      | ((none, unionErrors), st2) =>
          (none, addIssue cx (.invalidUnion cx.path unionErrors) st2)
  | .opt inner => fun opts d cx st =>
      match d with
      | .undef => (some .undef, st)
      | _ => parseV inner opts d cx st
  | .nullable inner => fun opts d cx st =>
      match d with
      | .nul => (some .nul, st)
      | _ => parseV inner opts d cx st
  | .dflt inner defaultValue => fun opts d cx st =>
      -- ValaiDefault._parse: substitutes on undefined in every mode, never
      -- consulting shouldUseDefaults
      match d with
      | .undef => (some defaultValue, st)
      | _ => parseV inner opts d cx st

/-- The member loop of `ValaiUnion._parse`: test each option in a fresh
sibling context; the first one that is valid with zero issues wins (the
loop stops there, as the source returns); otherwise the failed trial's
issues accumulate into `unionErrors`. -/
def parseUnionOpts : SchemaList → POpts → DVal → Ctx → IssueStore → List Issue →
    Prod (Prod (Option DVal) (List Issue)) IssueStore
  | .nil => fun _ _ _ st acc => ((none, acc), st)
  | .cons o rest => fun opts d cx st acc =>
      let (testCx, st1) := mkSibling cx st
      let (r, st2) := parseV o opts d testCx st1
      match r with
      | some v =>
          if (issuesAt st2 testCx.selfIdx).isEmpty then ((some v, acc), st2)
          else parseUnionOpts rest opts d cx st2 (acc ++ issuesAt st2 testCx.selfIdx)
      | none => parseUnionOpts rest opts d cx st2 (acc ++ issuesAt st2 testCx.selfIdx)

/-- The shape loop of `ValaiObject._parse`: validate each declared key's
value (or `undefined` when absent) in a child context; a key enters the
output when its result is valid and either defined or present in the
input. -/
def parseShape : ShapeList → POpts → List (Prod (List Char) DVal) → Ctx → IssueStore →
    Prod (List (Prod (List Char) DVal)) IssueStore
  | .nil => fun _ _ _ st => ([], st)
  | .cons key sch tl => fun opts fields cx st =>
      let value := (lookupField fields key).getD .undef
      let (childCx, st1) := mkChild cx (.key key) st
      let (r, st2) := parseV sch opts value childCx st1
      let (restRes, st3) := parseShape tl opts fields cx st2
      match r with
      | some .undef =>
          if hasField fields key then ((key, .undef) :: restRes, st3)
          else (restRes, st3)
      | some v => ((key, v) :: restRes, st3)
      | none => (restRes, st3)

end

end Valai

namespace Valai

/-! ## Entry points (`schemas/base.ts`) -/

/-- The outward `ParseResult`: success with data, or failure with the
aggregated issue list and the optional partial value. -/
inductive SafeResult where
  | ok (data : DVal)
  | fail (issues : List Issue) (partialVal : Option DVal)
deriving Repr

/-- Whether a result is a success (`result.success`). -/
def SafeResult.success : SafeResult → Bool
  | .ok _ => true
  | .fail _ _ => false

/-- Run `_parse` with a fresh root context and finalize
(`ParseContext.finalize`): success exactly when the return is valid and
the root collected zero issues; otherwise the failure carries the root's
issues and, when the return was valid, the partial value. -/
def runParse (opts : POpts) (s : VSchema) (d : DVal) : SafeResult :=
  let root : Ctx := { selfIdx := 0, ancestors := [], path := [] }
  match parseV s opts d root [[]] with
  | (some v, st) =>
      if (issuesAt st 0).isEmpty then .ok v else .fail (issuesAt st 0) (some v)
  | (none, st) => .fail (issuesAt st 0) none

/-- `safeParse(data)`: strict-mode validation returning a result object. -/
def safeParse (s : VSchema) (d : DVal) : SafeResult :=
  runParse { mode := .strict } s d

/-- `parse(data)`: calls `safeParse` and converts a failure into a thrown
`ValaiError` carrying the same issues (modelled as `Except`). -/
def vparse (s : VSchema) (d : DVal) : Except (List Issue) DVal :=
  match safeParse s d with
  | .ok v => .ok v
  | .fail issues _ => .error issues

/-- The lazy group of the markdown regex of `_extractAndRepairJSON`
(`base.ts`): pattern `/```(?:json)?\s*([\s\S]*?)```/` — like the repair
module's extractor but with only a lowercase optional tag.  Returns the
first match's group. -/
def baseMdScan : List Char → Option (List Char)
  | [] => none
  | c :: r =>
      if "```".data.isPrefixOf (c :: r) then
        match findCloseFence
            ((if "json".data.isPrefixOf ((c :: r).drop 3) then (c :: r).drop 7
              else (c :: r).drop 3).dropWhile isJsWs) with
        | some (g, _) => some g
        | none => baseMdScan r
      else baseMdScan r

/-- The prefix of a text up to and including the last occurrence of a
character, if the character occurs. -/
def takeToLast (cc : Char) (l : List Char) : Option (List Char) :=
  match l.reverse.dropWhile (fun x => x ≠ cc) with
  | [] => none
  | found => some found.reverse

/-- The JSON-shaped-substring regex of `_extractAndRepairJSON`:
`/(\{[\s\S]*\}|\[[\s\S]*\])/` — at the first `{` with a later `}`, the
greedy span to the last `}`; otherwise the analogous `[...]` span at the
first suitable position. -/
def bjmGo : List Char → Option (List Char)
  | [] => none
  | c :: r =>
      if c = '\x7b' then
        match takeToLast '\x7d' r with
        | some pre => some ('\x7b' :: pre)
        | none => bjmGo r
      else if c = '[' then
        match takeToLast ']' r with
        | some pre => some ('[' :: pre)
        | none => bjmGo r
      else bjmGo r

/-- `ValaiType._extractAndRepairJSON` (`schemas/base.ts`): trim, strip one
markdown fence (nonempty group), isolate a `{...}`/`[...]` span, then try
a strict parse; on parse failure the (possibly extracted) text itself is
returned for the schema to see. -/
def extractAndRepairJSON (input : List Char) : DVal :=
  let t0 := jsTrim input
  let t1 := match baseMdScan t0 with
    | some g => if g.isEmpty then t0 else jsTrim g
    | none => t0
  let t2 := match bjmGo t1 with
    | some g => g
    | none => t1
  match jsonParse t2 with
  | some v => v
  | none => .str t2

/-- `parseLLM(data, options)`: pre-process string input through
`_extractAndRepairJSON` (when `extractFromMarkdown` is enabled), then
validate in llm mode with the given options. -/
def parseLLM (s : VSchema) (d : DVal) (lo : LLMOpts := {}) : SafeResult :=
  let processed := match d with
    | .str text => if lo.extractFromMarkdown then extractAndRepairJSON text else d
    | other => other
  runParse { mode := .llm, llm := lo } s processed

/-! ## Chainable configuration methods (`schemas/base.ts`, `string.ts`,
the object file)

Every configuration method on a schema node clones the definition with
the delta and returns a new node (`_clone` + spread); the embedding makes
each method a pure function from the receiver's definition to the new
definition.  `ValaiString`'s full definition record carries the check
list plus the carried-through metadata. -/

/-- The `ValaiStringDef` fragment: ordered checks plus metadata. -/
structure StringNode where
  checks : List StrCheck := []
  description : Option (List Char) := none
  examples : List (List Char) := []
deriving Repr

/-- `ValaiString._addCheck`: a new node with the check appended
(`checks: [...(this._def.checks ?? []), check]`). -/
def addCheck (n : StringNode) (c : StrCheck) : StringNode :=
  { n with checks := n.checks ++ [c] }

/-- `ValaiString.min(length)`. -/
def stringMin (n : StringNode) (len : Nat) : StringNode := addCheck n (.minLen len)

/-- `ValaiString.max(length)`. -/
def stringMax (n : StringNode) (len : Nat) : StringNode := addCheck n (.maxLen len)

/-- `ValaiType.describe(description)`: clone with the description set. -/
def describeNode (n : StringNode) (d : List Char) : StringNode :=
  { n with description := some d }

/-- `ValaiType.examples(examples)`: clone with the examples set. -/
def examplesNode (n : StringNode) (ex : List (List Char)) : StringNode :=
  { n with examples := ex }

/-- The `_parse`-relevant content of a string node: its definition's
check list (description and examples are never read by `_parse`). -/
def StringNode.schema (n : StringNode) : VSchema := .str n.checks

/-- `ValaiType.optional()`: a new `ValaiOptional` node wrapping the
receiver. -/
def optionalWrap (s : VSchema) : VSchema := .opt s

/-- `ValaiType.nullable()`: a new `ValaiNullable` node wrapping the
receiver. -/
def nullableWrap (s : VSchema) : VSchema := .nullable s

/-- `ValaiType.default(value)`: a new `ValaiDefault` node wrapping the
receiver. -/
def defaultWrap (s : VSchema) (v : DVal) : VSchema := .dflt s v

/-- `ValaiObject.strict()`: a new object node with the same shape and
`unknownKeys: 'strict'`. -/
def objStrict (shape : ShapeList) (_ : UnknownKeys) : VSchema :=
  .obj shape .strict

/-- `ValaiObject.strip()`. -/
def objStrip (shape : ShapeList) (_ : UnknownKeys) : VSchema :=
  .obj shape .strip

/-- `ValaiObject.passthrough()`. -/
def objPassthrough (shape : ShapeList) (_ : UnknownKeys) : VSchema :=
  .obj shape .passthrough

end Valai

namespace Valai

/-! ## String-region classification (spec §4.1)

`stringChars inS esc cs` collects, in order, exactly the characters of
`cs` that the single-pass quote-aware, escape-aware scan of §4.1
classifies as being inside a double-quoted string (the delimiting quotes
themselves are structural and excluded; a backslash inside a string and
the character it escapes are both in-string content).  The branch
structure mirrors the scanner state machine that `fixTrailingCommas`
implements. -/

def stringChars (inS esc : Bool) : List Char → List Char
  | [] => []
  | c :: r =>
      if esc then c :: stringChars inS false r
      else if c = '\\' && inS then c :: stringChars inS true r
      else if c = '"' then stringChars (!inS) false r
      else if inS then c :: stringChars inS false r
      else stringChars inS false r

/-- `fixTrailingCommas` preserves in-string content from any scanner
state: the characters classified in-string by the §4.1 scan are emitted
verbatim (the deleted commas are all classified structural). -/
theorem ftcGo_stringChars :
    ∀ (l : List Char) (inS esc : Bool),
      stringChars inS esc (ftcGo inS esc l) = stringChars inS esc l := by
  intro l
  induction l with
  | nil =>
      intro inS esc
      rfl
  | cons c r ih =>
      intro inS esc
      cases esc with
      | true =>
          simp only [ftcGo, stringChars, if_true]
          exact congrArg (c :: ·) (ih inS false)
      | false =>
          by_cases h2 : (c = '\\' && inS) = true
          · simp only [ftcGo, stringChars, h2, Bool.false_eq_true, if_false, if_true]
            exact congrArg (c :: ·) (ih inS true)
          · by_cases h3 : c = '"'
            · subst h3
              simp only [ftcGo, stringChars, h2, Bool.false_eq_true, if_false, if_true,
                if_pos rfl]
              exact ih (!inS) false
            · by_cases h4 : inS = true
              · subst h4
                simp only [ftcGo, stringChars, h2, h3, Bool.false_eq_true, if_false,
                  if_true]
                exact congrArg (c :: ·) (ih true false)
              · have h4f : inS = false := by
                  cases inS
                  · rfl
                  · exact absurd rfl h4
                subst h4f
                by_cases h5 : (c = ',' &&
                    ((r.dropWhile isJsWs).headD ' ' = '\x7d' ||
                     (r.dropWhile isJsWs).headD ' ' = ']')) = true
                · simp only [ftcGo, stringChars, h2, h3, h5, Bool.false_eq_true,
                    if_false, if_true]
                  exact ih false false
                · simp only [ftcGo, stringChars, h2, h3, h5, Bool.false_eq_true,
                    if_false]
                  exact ih false false

end Valai

namespace Valai

/-! ## Orchestrator-level helper lemmas -/

/-- `repairJSON` unfolded at a known pipeline output. -/
theorem repairJSON_eval (opts : RepairOptions) (input t : List Char)
    (log : List (List Char)) (hpp : repairPipeline opts input = (t, log)) :
    repairJSON input opts =
      match jsonParse t with
      | some v => { success := true, data := some v, text := t,
                    repaired := decide (t ≠ input), repairs := log }
      | none => { success := false, data := none, text := t,
                  repaired := decide (t ≠ input), repairs := log } := by
  unfold repairJSON
  rw [hpp]

/-- The `repaired` flag of `repairJSON` is the byte comparison of the
pipeline output against the input, in both parse outcomes. -/
theorem repairJSON_repaired_spec (opts : RepairOptions) (input t : List Char)
    (log : List (List Char)) (hpp : repairPipeline opts input = (t, log)) :
    (repairJSON input opts).repaired = decide (t ≠ input) := by
  rw [repairJSON_eval opts input t log hpp]
  cases jsonParse t <;> rfl

/-- When `repairJSON` reports `repaired = false`, the pipeline output is
the input itself. -/
theorem repaired_false_pipeline (opts : RepairOptions) (input t : List Char)
    (log : List (List Char)) (hpp : repairPipeline opts input = (t, log))
    (h : (repairJSON input opts).repaired = false) : t = input := by
  have h2 := repairJSON_repaired_spec opts input t log hpp
  rw [h] at h2
  exact not_not.mp (of_decide_eq_false h2.symm)

end Valai

namespace Valai

/-! ## The claims -/

/-- C1: the code bug, witnessed.  The spec claims a failed union member's
issues never leak into the parent or any ancestor context, so that a union
nested inside an object that validates via a later member still yields an
overall `safeParse` success.  In the code, `ParseContext.sibling` sets
`parent: this.parent`, so the failed first member's `invalid_type` issue is
forwarded into the enclosing object's context and the root: for the schema
`object({u: union([number(), string()])})` and input `{u: "x"}` (where the
union itself succeeds via the string member), `safeParse` returns a failure
carrying exactly the leaked issue.  At the top level (no parent) the
isolation works and the same union accepts `"x"`. -/
theorem union_sibling_issue_leak :
    safeParse (.obj (shapeOf [("u".data, .union (schemaListOf [.num [], .str []]))]) .strip)
        (.obj [("u".data, .str "x".data)]) =
      .fail [.invalidType [.key "u".data] "number".data "string".data] none ∧
    safeParse (.union (schemaListOf [.num [], .str []])) (.str "x".data) =
      .ok (.str "x".data) :=
  ⟨rfl, rfl⟩

/-- C2 (counterexample): `{"a:.5":0}` is strictly valid JSON, yet
`repairJSON` with default options reports `repaired = true` — the
number-format fixer rewrote the `:.5` inside the key string — refuting
"for every strictly valid JSON text j, repairJSON(j) returns
repaired == false and data equal to JSON.parse(j)". -/
theorem repair_clean_roundtrip_counterexample :
    (jsonParse "\x7b\"a:.5\":0\x7d".data).isSome = true ∧
    (repairJSON "\x7b\"a:.5\":0\x7d".data).repaired = true ∧
    (repairJSON "\x7b\"a:.5\":0\x7d".data).text = "\x7b\"a: 0.5\":0\x7d".data :=
  ⟨rfl, rfl, rfl⟩

/-- C2 (amended): for a strictly valid JSON text that the fixer pipeline
leaves unchanged (`repaired = false`), `repairJSON` succeeds with
`data = JSON.parse(j)` and returns the text itself; the unconditional
claim fails because the regex-based fixers can rewrite string contents of
valid JSON. -/
theorem repair_clean_roundtrip_amended (j : List Char) (v : DVal)
    (hv : jsonParse j = some v) (hid : (repairJSON j).repaired = false) :
    (repairJSON j).success = true ∧ (repairJSON j).data = some v ∧
    (repairJSON j).text = j := by
  rcases hpp : repairPipeline {} j with ⟨t, log⟩
  have ht : t = j := repaired_false_pipeline {} j t log hpp hid
  have hv2 : jsonParse t = some v := by rw [ht]; exact hv
  rw [repairJSON_eval {} j t log hpp, hv2]
  exact ⟨rfl, rfl, ht⟩

/-- C2 (witness): `{"name": "test"}` (the repair suite's own clean input)
satisfies both hypotheses, and the round-trip conclusion follows. -/
theorem repair_clean_roundtrip_witness :
    jsonParse "\x7b\"name\": \"test\"\x7d".data =
      some (.obj [("name".data, .str "test".data)]) ∧
    (repairJSON "\x7b\"name\": \"test\"\x7d".data).repaired = false ∧
    ((repairJSON "\x7b\"name\": \"test\"\x7d".data).success = true ∧
     (repairJSON "\x7b\"name\": \"test\"\x7d".data).data =
       some (.obj [("name".data, .str "test".data)]) ∧
     (repairJSON "\x7b\"name\": \"test\"\x7d".data).text =
       "\x7b\"name\": \"test\"\x7d".data) :=
  ⟨rfl, rfl, repair_clean_roundtrip_amended _ _ rfl rfl⟩

/-- C3 (counterexample): the special-number and number-format fixers (and
the key-quoting fixer) are plain regex substitutions with no string
scanning, so they do alter content inside double-quoted strings:
`':NaN'` inside a key becomes `': null'`, `':.5'` becomes `': 0.5'`, and
`'{b: 1}'` inside a string value gets its `b` quoted — refuting "the
content inside a double-quoted string region of the input is never
altered" for these fixers. -/
theorem fixer_string_safety_counterexample :
    fixSpecialNumbers "\x7b\"x:NaN\":1\x7d".data = "\x7b\"x: null\":1\x7d".data ∧
    fixSpecialNumbers "\x7b\"x:NaN\":1\x7d".data ≠ "\x7b\"x:NaN\":1\x7d".data ∧
    fixNumberFormats "\x7b\"a:.5\":0\x7d".data = "\x7b\"a: 0.5\":0\x7d".data ∧
    fixUnquotedKeys "\x7b\"a\": \"\x7bb: 1\x7d\"\x7d".data =
      "\x7b\"a\": \"\x7b\"b\": 1\x7d\"\x7d".data :=
  ⟨rfl, by decide, rfl, rfl⟩

/-- C3 (amended): the scanner-based fixers are string-safe while the
regex-based ones are not.  Proved here for the two scanner-based fixers
the pipeline runs on arbitrary text: `fixTrailingCommas` preserves the
in-string characters (per the §4.1 escape-aware scan) of every input
exactly, and `tryCloseBrackets` only ever appends characters at the end of
the text, so neither alters the inside of a double-quoted string of the
input; `fixSpecialNumbers`, `fixNumberFormats` and `fixUnquotedKeys` are
regex substitutions that can rewrite in-string content (see the
counterexample). -/
theorem fixer_string_safety_amended (s : List Char) :
    stringChars false false (fixTrailingCommas s) = stringChars false false s ∧
    ∃ t, tryCloseBrackets s = s ++ t := by
  constructor
  · exact ftcGo_stringChars s false false
  · refine ⟨(if (tcbGo [] false false s).2 then ['"'] else []) ++
      (tcbGo [] false false s).1, ?_⟩
    unfold tryCloseBrackets
    rcases tcbGo [] false false s with ⟨stk, inS⟩
    exact List.append_assoc s _ _

/-- C4 (counterexample): repair is not idempotent.  For `x{"a":1` the
first pass only closes the bracket (yielding `x{"a":1}`, still
unparseable); the second pass then extracts `{"a":1}` from it, so the
second run's action log is `[extractFromText]` and its `repaired` flag is
`true` — refuting "the second run's action log is empty and its repaired
flag is false". -/
theorem repair_idempotence_counterexample :
    (repairJSON "x\x7b\"a\":1".data).text = "x\x7b\"a\":1\x7d".data ∧
    (repairJSON ((repairJSON "x\x7b\"a\":1".data).text)).repaired = true ∧
    (repairJSON ((repairJSON "x\x7b\"a\":1".data).text)).repairs =
      ["extractFromText".data] ∧
    (repairJSON ((repairJSON "x\x7b\"a\":1".data).text)).text = "\x7b\"a\":1\x7d".data :=
  ⟨rfl, rfl, rfl, rfl⟩

/-- C4 (amended): a second repair pass returns the identical result
whenever the first pass performed no repairs (`repaired = false`, which
forces the final text to equal the input); when the first pass did change
the text, a second pass may perform further repairs (see the
counterexample). -/
theorem repair_idempotent_when_unrepaired (x : List Char)
    (h : (repairJSON x).repaired = false) :
    repairJSON ((repairJSON x).text) = repairJSON x := by
  rcases hpp : repairPipeline {} x with ⟨t, log⟩
  have ht : t = x := repaired_false_pipeline {} x t log hpp h
  have htext : (repairJSON x).text = t := by
    rw [repairJSON_eval {} x t log hpp]
    cases jsonParse t <;> rfl
  rw [htext, ht]

/-- C4 (witness): `[1, 2, 3]` is passed through unrepaired, and the second
pass is then the identical run. -/
theorem repair_idempotent_witness :
    (repairJSON "[1, 2, 3]".data).repaired = false ∧
    repairJSON ((repairJSON "[1, 2, 3]".data).text) = repairJSON "[1, 2, 3]".data :=
  ⟨rfl, repair_idempotent_when_unrepaired _ rfl⟩

end Valai

namespace Valai

/-- A wrapper method's result is a different node from its receiver. -/
theorem optionalWrap_ne (s : VSchema) : optionalWrap s ≠ s := by
  intro h
  have h2 := congrArg sizeOf h
  simp [optionalWrap] at h2

/-- C5: schema nodes are immutable: each chainable configuration method is
a pure clone-with-delta.  `min` returns a node whose definition is the
receiver's with the check appended (the receiver's checks and metadata are
untouched); `describe` sets only the description and leaves validation
behaviour literally unchanged; `optional()` returns a new wrapper node;
and, as in the claim's example, after `b = a.min(3)` the original
`a = string()` still accepts `"x"` while `b` rejects it. -/
theorem schema_node_immutability :
    ∀ (n : StringNode) (len : Nat) (d : List Char) (x : DVal) (s : VSchema),
      (stringMin n len).checks = n.checks ++ [.minLen len] ∧
      (stringMin n len).description = n.description ∧
      (describeNode n d).checks = n.checks ∧
      safeParse (describeNode n d).schema x = safeParse n.schema x ∧
      optionalWrap s ≠ s ∧
      safeParse (StringNode.schema {}) (.str "x".data) = .ok (.str "x".data) ∧
      (safeParse (StringNode.schema (stringMin {} 3)) (.str "x".data)).success = false :=
  fun n len d x s => ⟨rfl, rfl, rfl, rfl, optionalWrap_ne s, rfl, rfl⟩

/-- C6: unknown-key handling of an object schema on shape
`{name: string()}` and input `{name:"x", extra:true}`: the constructor
default (`unknownKeys: 'strip'`) and the `strip()` method silently drop
the extra key; `strict()` fails with an `unrecognized_keys` issue listing
`["extra"]`; `passthrough()` copies the extra key through unchanged. -/
theorem object_unknown_key_modes :
    safeParse (.obj (shapeOf [("name".data, .str [])]) .strip)
        (.obj [("name".data, .str "x".data), ("extra".data, .bool true)]) =
      .ok (.obj [("name".data, .str "x".data)]) ∧
    safeParse (objStrip (shapeOf [("name".data, .str [])]) .strict)
        (.obj [("name".data, .str "x".data), ("extra".data, .bool true)]) =
      .ok (.obj [("name".data, .str "x".data)]) ∧
    safeParse (objStrict (shapeOf [("name".data, .str [])]) .strip)
        (.obj [("name".data, .str "x".data), ("extra".data, .bool true)]) =
      .fail [.unrecognizedKeys [] ["extra".data]] none ∧
    safeParse (objPassthrough (shapeOf [("name".data, .str [])]) .strip)
        (.obj [("name".data, .str "x".data), ("extra".data, .bool true)]) =
      .ok (.obj [("name".data, .str "x".data), ("extra".data, .bool true)]) :=
  ⟨rfl, rfl, rfl, rfl⟩

/-- C7: for every schema and input, `parse` throws exactly when
`safeParse` fails — and the thrown `ValaiError` carries the same issue
list; when `safeParse` succeeds, `parse` returns the same value.
(Internally, the embedded validation is total: failures travel as issues
in the context store, never as exceptions; `vparse` is the single
boundary converting an aggregated failure into a thrown error.) -/
theorem parse_throws_iff_safeParse_fails :
    ∀ (s : VSchema) (d : DVal),
      match safeParse s d with
      | .ok v => vparse s d = Except.ok v
      | .fail issues _ => vparse s d = Except.error issues := by
  intro s d
  unfold vparse
  cases h : safeParse s d <;> simp [h]

/-- C8: issues propagate to every ancestor up to the root with per-level
path tracking: `object({user: object({name: string()})})` on
`{user: {name: 123}}` fails with exactly one issue in the final list, and
its path is `["user", "name"]`; and a child context's path is always the
parent's path extended by the one new segment. -/
theorem nested_issue_single_path :
    safeParse (.obj (shapeOf [("user".data,
        .obj (shapeOf [("name".data, .str [])]) .strip)]) .strip)
      (.obj [("user".data, .obj [("name".data, .num 123)])]) =
      .fail [.invalidType [.key "user".data, .key "name".data]
        "string".data "number".data] none ∧
    (∀ (cx : Ctx) (seg : Seg) (st : IssueStore),
      ((mkChild cx seg st).1).path = cx.path ++ [seg]) :=
  ⟨rfl, fun _ _ _ => rfl⟩

/-- C9: default substitution is not gated on lenient mode: for every inner
schema and default value, both strict `safeParse(undefined)` and
`parseLLM(undefined)` return the default — regardless of the
`useDefaults` option, which the `ValaiDefault` wrapper never consults —
while a provided `null` is delegated to the inner schema unchanged in
both modes. -/
theorem default_not_gated_on_mode :
    ∀ (inner : VSchema) (d : DVal) (b : Bool),
      safeParse (.dflt inner d) .undef = .ok d ∧
      parseLLM (.dflt inner d) .undef { useDefaults := b } = .ok d ∧
      safeParse (.dflt inner d) .nul = safeParse inner .nul ∧
      parseLLM (.dflt inner d) .nul { useDefaults := b } =
        parseLLM inner .nul { useDefaults := b } :=
  fun inner d b => ⟨rfl, rfl, rfl, rfl⟩

/-- Trimming a whitespace-only text gives the empty text. -/
theorem jsTrim_ws_nil (s : List Char) (h : ∀ c ∈ s, isJsWs c = true) :
    jsTrim s = [] := by
  unfold jsTrim
  have h1 : s.dropWhile isJsWs = [] := List.dropWhile_eq_nil_iff.mpr h
  rw [h1]
  rfl

/-- C10: in lenient mode with coercion enabled, the number schema coerces
the empty string — and any whitespace-only string, which
`_extractAndRepairJSON` trims to the empty string — to the number `0`
(`Number("")` is `0`, not `NaN`), so `number().parseLLM("")` succeeds with
value `0` rather than failing the type check. -/
theorem number_coerces_empty_string :
    parseLLM (.num []) (.str []) = .ok (.num 0) ∧
    (∀ s : List Char, (∀ c ∈ s, isJsWs c = true) →
      parseLLM (.num []) (.str s) = .ok (.num 0)) := by
  constructor
  · rfl
  · intro s hws
    have h0 : jsTrim s = [] := jsTrim_ws_nil s hws
    have h1 : extractAndRepairJSON s = DVal.str [] := by
      unfold extractAndRepairJSON
      rw [h0]
      rfl
    simp only [parseLLM, h1]
    rfl

/-- C10 (witness): the three-space string is whitespace-only and coerces
to `0`. -/
theorem number_coerces_empty_string_witness :
    (∀ c ∈ "   ".data, isJsWs c = true) ∧
    parseLLM (.num []) (.str "   ".data) = .ok (.num 0) :=
  ⟨by decide, number_coerces_empty_string.2 "   ".data (by decide)⟩

end Valai
